import Mathlib

/-!
Verification of the derived-finder repository core: the identifier
normalizer (`toSnakeCase`), the finder-method grammar (`parseFinderMethod`),
the dynamic dispatch path of derived finders (`invokeFinder`), and the
chunked batch-write executor (`createMany`).  Every definition is a shallow
embedding of the corresponding TypeScript function; strings are modelled as
`List Char`, JavaScript runtime values as `JsValue`, thrown errors as
`Except RepositoryError`.
-/

set_option maxRecDepth 4000

namespace Frix

/-! ## Character classes (the regex classes `[A-Z]`, `[a-z]`, `\d`) -/

/-- Character class A to Z: code points 65 to 90. -/
def isUpperCh (c : Char) : Bool := 65 ≤ c.toNat && c.toNat ≤ 90

/-- Character class a to z: code points 97 to 122. -/
def isLowerCh (c : Char) : Bool := 97 ≤ c.toNat && c.toNat ≤ 122

/-- Digit class 0 to 9: code points 48 to 57. -/
def isDigitCh (c : Char) : Bool := 48 ≤ c.toNat && c.toNat ≤ 57

def isLowerDigit (c : Char) : Bool := isLowerCh c || isDigitCh c

/-- ASCII lowering, the effect of `String.prototype.toLowerCase` on the
identifier characters handled here. -/
def lowerChar (c : Char) : Char :=
  if isUpperCh c then Char.ofNat (c.toNat + 32) else c

/-! ## `toSnakeCase` (mapper/utils.ts)

The source applies three regex replacements and then lowercases:
1. `^([A-Z]+)([A-Z][a-z])` -> `$1_$2` (leading acronym, non-global);
2. `([a-z\d])([A-Z]+)([A-Z][a-z])` -> `$1_$2_$3` (global, mid acronym);
3. `([a-z\d])([A-Z])` -> `$1_$2` (global, single word boundary).
Each replacement is embedded with JavaScript `String.replace` scanning
semantics: the input is scanned left to right, matches do not overlap, and
scanning resumes after the end of the previous match. -/

/-- Replacement 1: if the string starts with a maximal uppercase run of
length `k ≥ 2` whose following character is lowercase, insert `_` before the
run's last character (greedy `[A-Z]+` backtracking leaves exactly one
uppercase character for `[A-Z][a-z]`). -/
def leadingAcronymSplit (s : List Char) : List Char :=
  let run := s.takeWhile isUpperCh
  let rest := s.drop run.length
  match rest with
  | c :: rest' =>
    if 2 ≤ run.length && isLowerCh c then
      run.take (run.length - 1) ++ '_' :: run.drop (run.length - 1) ++ c :: rest'
    else s
  | [] => s

/-- Replacement 2, fuel-indexed scanner.  A match is a lower/digit
character, a maximal uppercase run of length `m ≥ 2`, and a lowercase
character; the replacement inserts `_` after the leading character and
before the run's last character, and scanning resumes after the matched
lowercase character.  One unit of fuel is spent per scanning step, so fuel
equal to the input length always suffices. -/
def midAcronymGo : Nat → List Char → List Char
  | 0, s => s
  | _ + 1, [] => []
  | fuel + 1, a :: rest =>
    if isLowerDigit a then
      let run := rest.takeWhile isUpperCh
      match rest.drop run.length with
      | c :: tail =>
        if 2 ≤ run.length && isLowerCh c then
          a :: '_' :: run.take (run.length - 1) ++ '_' ::
            run.drop (run.length - 1) ++ c :: midAcronymGo fuel tail
        else a :: midAcronymGo fuel rest
      | [] => a :: midAcronymGo fuel rest
    else a :: midAcronymGo fuel rest

def midAcronymSplit (s : List Char) : List Char := midAcronymGo s.length s

/-- Replacement 3: insert `_` between a lower/digit character and an
uppercase character; matched pairs do not overlap. -/
def singleUpperSplit : List Char → List Char
  | [] => []
  | [c] => [c]
  | a :: b :: rest =>
    if isLowerDigit a && isUpperCh b then a :: '_' :: b :: singleUpperSplit rest
    else a :: singleUpperSplit (b :: rest)

/-- A character of an already-snake_case identifier: a lowercase letter, a
digit, or an underscore. -/
def IsSnakeChar (c : Char) : Prop :=
  isLowerCh c = true ∨ isDigitCh c = true ∨ c = '_'

instance decIsSnakeChar (c : Char) : Decidable (IsSnakeChar c) := by
  unfold IsSnakeChar
  infer_instance

/-- The function toSnakeCase from mapper/utils.ts: empty strings are returned as-is,
otherwise the three replacements run in order and the result is
lowercased. -/
def toSnakeCase (s : List Char) : List Char :=
  if s = [] then s
  else
    let r1 := leadingAcronymSplit s
    (singleUpperSplit (midAcronymGo r1.length r1)).map lowerChar

/-! ## Parser data model (types.ts / parser.ts) -/

/-- The comparison operators (`ComparisonOperator` in types.ts); `inOp`
stands for the source's `'in'`. -/
inductive ComparisonOperator where
  | eq | gt | gte | lt | lte | inOp | like | isNull | isNotNull
  deriving DecidableEq, Repr

/-- The two finder prefixes, `findAllBy` and `findBy`. -/
inductive FinderKind where
  | findAllBy | findBy
  deriving DecidableEq, Repr

def kindChars : FinderKind → List Char
  | .findAllBy => "findAllBy".toList
  | .findBy => "findBy".toList

structure ParsedColumn where
  name : List Char
  comparison : ComparisonOperator
  deriving DecidableEq, Repr

inductive Direction where
  | asc | desc
  deriving DecidableEq, Repr

structure OrderBySpec where
  column : List Char
  direction : Direction
  deriving DecidableEq, Repr

/-- Structure ParsedMethod from types.ts; the source field named like the
word prefix is called prefixKind here. -/
structure ParsedMethod where
  prefixKind : FinderKind
  columns : List ParsedColumn
  orderBy : Option OrderBySpec
  deriving DecidableEq, Repr

/-- Error model RepositoryError: the machine-readable code together with its
diagnostic context. -/
inductive RepositoryError where
  | invalidFinderName (methodName : List Char)
  | argumentCountMismatch (methodName : List Char) (expected received : Nat)
  | methodNotImplemented (methodName : List Char)
  deriving DecidableEq, Repr

/-! ## parser.ts -/

/-- Prefix recognition, FINDER_PREFIXES.find with startsWith, in the source
order findAllBy then findBy. -/
def finderKindOf (name : List Char) : Option FinderKind :=
  if (kindChars .findAllBy).isPrefixOf name then some .findAllBy
  else if (kindChars .findBy).isPrefixOf name then some .findBy
  else none

/-- The list COMPARISON_SUFFIXES paired with COMPARISON_MAP, in source order
(longer suffixes first). -/
def comparisonSuffixes : List (List Char × ComparisonOperator) :=
  [("GreaterThanEqual".toList, .gte),
   ("LessThanEqual".toList, .lte),
   ("GreaterThan".toList, .gt),
   ("LessThan".toList, .lt),
   ("IsNotNull".toList, .isNotNull),
   ("IsNull".toList, .isNull),
   ("Like".toList, .like),
   ("In".toList, .inOp)]

/-- Column-part parsing: the first suffix in COMPARISON_SUFFIXES that
matches wins; without a match the operator defaults to `eq`. -/
def parseColumnPart (part : List Char) : ParsedColumn :=
  match comparisonSuffixes.find? (fun p => p.1.isSuffixOf part) with
  | some p =>
    { name := toSnakeCase (part.take (part.length - p.1.length)), comparison := p.2 }
  | none => { name := toSnakeCase part, comparison := .eq }

/-- Splitting on the literal And, as String.split does: split on every
non-overlapping occurrence, scanning left to right. -/
def splitAnd : List Char → List (List Char)
  | 'A' :: 'n' :: 'd' :: rest => [] :: splitAnd rest
  | c :: rest =>
    match splitAnd rest with
    | p :: ps => (c :: p) :: ps
    | [] => [[c]]
  | [] => [[]]

/-- Splitting at the first indexOf occurrence of the literal OrderBy into
the two slices around it, or none when there is no occurrence. -/
def splitOrderBy : List Char → Option (List Char × List Char)
  | 'O' :: 'r' :: 'd' :: 'e' :: 'r' :: 'B' :: 'y' :: rest => some ([], rest)
  | c :: rest =>
    match splitOrderBy rest with
    | some pr => some (c :: pr.1, pr.2)
    | none => none
  | [] => none

/-- The `Desc`/`Asc` suffix handling of the ordering segment: returns the
direction and the remaining order column. -/
def stripDirection (seg : List Char) : Direction × List Char :=
  if ("Desc".toList).isSuffixOf seg then (.desc, seg.take (seg.length - 4))
  else if ("Asc".toList).isSuffixOf seg then (.asc, seg.take (seg.length - 3))
  else (.asc, seg)

/-- The column-splitting tail of `parseFinderMethod`: rejects an empty
predicate segment and any empty `And`-separated part, then maps
`parseColumnPart`. -/
def parseColumns (name : List Char) (k : FinderKind) (rest : List Char)
    (orderBy : Option OrderBySpec) : Except RepositoryError ParsedMethod :=
  if rest = [] then .error (.invalidFinderName name)
  else
    let parts := splitAnd rest
    if parts.any (fun p => p == []) then .error (.invalidFinderName name)
    else .ok { prefixKind := k, columns := parts.map parseColumnPart, orderBy := orderBy }

/-- The function parseFinderMethod from parser.ts. -/
def parseFinderMethod (name : List Char) : Except RepositoryError ParsedMethod :=
  match finderKindOf name with
  | none => .error (.invalidFinderName name)
  | some k =>
    let rest := name.drop (kindChars k).length
    if rest = [] then .error (.invalidFinderName name)
    else
      match splitOrderBy rest with
      | none => parseColumns name k rest none
      | some pr =>
        if pr.2 = [] then .error (.invalidFinderName name)
        else
          parseColumns name k pr.1
            (some { column := toSnakeCase (stripDirection pr.2).2,
                    direction := (stripDirection pr.2).1 })

/-! ## JavaScript runtime values and the dynamic dispatch path
(create-repository.ts) -/

/-- A shallow model of the JavaScript values a finder call can receive. -/
inductive JsValue where
  | vNum (n : Int)
  | vStr (s : List Char)
  | vBool (b : Bool)
  | vNull
  | vUndefined
  | vObj (fields : List (List Char × JsValue))

/-- Key membership, the JavaScript in operator on an object. -/
def hasKey (fields : List (List Char × JsValue)) (k : List Char) : Bool :=
  fields.any (fun p => p.1 == k)

/-- Property access: the value stored under a key, undefined when the key
is absent. -/
def objGet (fields : List (List Char × JsValue)) (k : List Char) : JsValue :=
  match fields.find? (fun p => p.1 == k) with
  | some p => p.2
  | none => .vUndefined

def isNumber : JsValue → Bool
  | .vNum _ => true
  | _ => false

/-- Test for the undefined value. -/
def isUndefined : JsValue → Bool
  | .vUndefined => true
  | _ => false

/-- The guard isQueryOptions: a non-null object with a limit and/or offset key
whose value is a number or `undefined`. -/
def isQueryOptions : JsValue → Bool
  | .vObj fields =>
    (hasKey fields ("limit".toList) &&
      (isNumber (objGet fields ("limit".toList)) ||
        isUndefined (objGet fields ("limit".toList)))) ||
    (hasKey fields ("offset".toList) &&
      (isNumber (objGet fields ("offset".toList)) ||
        isUndefined (objGet fields ("offset".toList))))
  | _ => false

/-- Options extraction: for a collection finder whose last argument passes
`isQueryOptions`, pop it off as the options value. -/
def extractOptions (args : List JsValue) (isMultiple : Bool) :
    Option JsValue × List JsValue :=
  match args.getLast? with
  | some lastArg =>
    if isMultiple && isQueryOptions lastArg then (some lastArg, args.dropLast)
    else (none, args)
  | none => (none, args)

/-- The map OPERATOR_MAP: comparison operators to SQL operator strings. -/
def operatorMap : ComparisonOperator → List Char
  | .eq => "=".toList
  | .gt => ">".toList
  | .gte => ">=".toList
  | .lt => "<".toList
  | .lte => "<=".toList
  | .inOp => "in".toList
  | .like => "like".toList
  | .isNull => "is".toList
  | .isNotNull => "is not".toList

/-- Where-clause construction (applyWhereClausesGeneric): each column
becomes a where clause;
`isNull`/`isNotNull` bind `null` and consume no positional value, every
other operator binds the next positional value. -/
def buildWhere : List ParsedColumn → List JsValue →
    List (List Char × List Char × JsValue)
  | [], _ => []
  | c :: cs, vals =>
    if c.comparison = .isNull ∨ c.comparison = .isNotNull then
      (c.name, operatorMap c.comparison, JsValue.vNull) :: buildWhere cs vals
    else
      (c.name, operatorMap c.comparison, vals.headD .vUndefined) ::
        buildWhere cs vals.tail

/-- The argument-count computation in the proxy handler: the number of
parsed columns whose comparison is neither `isNull` nor `isNotNull`. -/
def expectedArgCount (cols : List ParsedColumn) : Nat :=
  (cols.filter
    (fun c => !(c.comparison == .isNull) && !(c.comparison == .isNotNull))).length

/-- Optional-chaining access to a field of the popped options value. -/
def optionField (o : Option JsValue) (k : List Char) : JsValue :=
  match o with
  | some (.vObj fields) => objGet fields k
  | some _ => .vUndefined
  | none => .vUndefined

/-- The query a derived finder builds and executes: the `where` clauses in
declared order, the ordering, the applied pagination, and the result
arity. -/
structure FinderQuery where
  whereClauses : List (List Char × List Char × JsValue)
  orderBy : Option OrderBySpec
  limit : Option JsValue
  offset : Option JsValue
  isMultiple : Bool

/-- The derived-finder path of the proxy handler together with
`createFinderFunction`: parse (through the cache, which is transparent for
a pure parse), extract trailing options, validate the argument count, and
build the query. -/
def invokeFinder (name : List Char) (args : List JsValue) :
    Except RepositoryError FinderQuery :=
  match parseFinderMethod name with
  | .error e => .error e
  | .ok parsed =>
    let isMultiple := parsed.prefixKind == .findAllBy
    let expectedArgs := expectedArgCount parsed.columns
    let eo := extractOptions args isMultiple
    if eo.2.length ≠ expectedArgs then
      .error (.argumentCountMismatch name expectedArgs eo.2.length)
    else
      .ok { whereClauses := buildWhere parsed.columns eo.2
            orderBy := parsed.orderBy
            limit :=
              if isUndefined (optionField eo.1 ("limit".toList)) then none
              else some (optionField eo.1 ("limit".toList))
            offset :=
              if isUndefined (optionField eo.1 ("offset".toList)) then none
              else some (optionField eo.1 ("offset".toList))
            isMultiple := isMultiple }

/-! ## Chunked batch executor (create-repository.ts) -/

/-- The `chunk` loop `for (let i = 0; i < array.length; i += size)`,
step-indexed: one unit of fuel per loop iteration, `none` when the fuel
runs out before the loop exits.  The loop index advances by `size` per
iteration, so for `size = 0` on a nonempty array no amount of fuel
suffices. -/
def chunkFuel (arr : List α) (size : Nat) : Nat → Nat → Option (List (List α))
  | 0, i => if i < arr.length then none else some []
  | fuel + 1, i =>
    if i < arr.length then
      match chunkFuel arr size fuel (i + size) with
      | some rest => some (((arr.drop i).take size) :: rest)
      | none => none
    else some []

/-- The function chunk: the result of the loop, where fuel equal to the
array length suffices for every size at least 1. -/
def chunk (arr : List α) (size : Nat) : List (List α) :=
  (chunkFuel arr size arr.length 0).getD []

def DEFAULT_CHUNK_SIZE : Nat := 1000

/-- Options for createMany: both fields optional. -/
structure CreateManyOptions where
  chunkSize : Option Nat := none
  skipReturn : Option Bool := none
  deriving DecidableEq, Repr

/-- Result of createMany: either the inserted rows or a row count. -/
inductive CreateManyResult (α : Type) where
  | rows (rs : List α)
  | count (n : Nat)
  deriving DecidableEq, Repr

/-- The backend insert calls `createMany` issues: none for an empty input,
otherwise one per chunk. -/
def createManyChunks (data : List α) (options : Option CreateManyOptions) :
    List (List α) :=
  if data.length = 0 then []
  else chunk data ((options.bind (fun o => o.chunkSize)).getD DEFAULT_CHUNK_SIZE)

/-- The function createMany: empty input short-circuits; otherwise the chunks are
inserted and the per-chunk results are reassembled in chunk order — the
rows concatenated, or the affected-row counts summed.  The backend is the
pair `ins`/`cnt` giving each chunk operation's result. -/
def createMany (data : List α) (options : Option CreateManyOptions)
    (ins : List α → List α) (cnt : List α → Nat) : CreateManyResult α :=
  if data.length = 0 then
    if (options.bind (fun o => o.skipReturn)).getD false then .count 0
    else .rows []
  else
    let chunkSize := (options.bind (fun o => o.chunkSize)).getD DEFAULT_CHUNK_SIZE
    let chunks := chunk data chunkSize
    if (options.bind (fun o => o.skipReturn)).getD false then
      .count ((chunks.map cnt).sum)
    else
      .rows ((chunks.map ins).flatten)

end Frix

deriving instance DecidableEq for Except

namespace Frix

/-! ## Helper lemmas about the chunk loop -/

theorem chunkFuel_shift (size : Nat) :
    ∀ (fuel : Nat) (arr : List α) (i : Nat),
      chunkFuel arr size fuel i = chunkFuel (arr.drop i) size fuel 0 := by
  intro fuel
  induction fuel with
  | zero =>
    intro arr i
    by_cases h : i < arr.length
    · have h2 : 0 < (arr.drop i).length := by simp [List.length_drop]; omega
      simp [chunkFuel, h, h2]
    · have h2 : ¬ 0 < (arr.drop i).length := by simp [List.length_drop]; omega
      simp [chunkFuel, h, h2]
  | succ fuel ih =>
    intro arr i
    by_cases h : i < arr.length
    · have h2 : 0 < (arr.drop i).length := by simp [List.length_drop]; omega
      simp only [chunkFuel, if_pos h, if_pos h2]
      rw [ih arr (i + size), ih (arr.drop i) (0 + size), List.drop_drop]
      simp
    · have h2 : ¬ 0 < (arr.drop i).length := by simp [List.length_drop]; omega
      simp [chunkFuel, h, h2]

theorem chunkFuel_size_zero (arr : List α) (h : arr ≠ []) :
    ∀ fuel, chunkFuel arr 0 fuel 0 = none := by
  have hlen : 0 < arr.length := List.length_pos.mpr h
  intro fuel
  induction fuel with
  | zero => simp [chunkFuel, hlen]
  | succ fuel ih => simp [chunkFuel, hlen, ih]

theorem chunkFuel_congr (size : Nat) (hs : 1 ≤ size) :
    ∀ (f1 f2 : Nat) (arr : List α), arr.length ≤ f1 → arr.length ≤ f2 →
      chunkFuel arr size f1 0 = chunkFuel arr size f2 0 := by
  intro f1
  induction f1 with
  | zero =>
    intro f2 arr h1 _
    have harr : arr = [] := List.length_eq_zero.mp (Nat.le_zero.mp h1)
    subst harr
    cases f2 <;> simp [chunkFuel]
  | succ f1 ih =>
    intro f2 arr h1 h2
    by_cases hne : arr = []
    · subst hne
      cases f2 <;> simp [chunkFuel]
    · have hlen : 0 < arr.length := List.length_pos.mpr hne
      obtain ⟨f2', rfl⟩ : ∃ f2', f2 = f2' + 1 := ⟨f2 - 1, by omega⟩
      simp only [chunkFuel, if_pos hlen]
      rw [chunkFuel_shift size f1 arr (0 + size), chunkFuel_shift size f2' arr (0 + size)]
      have hle1 : (arr.drop (0 + size)).length ≤ f1 := by simp [List.length_drop]; omega
      have hle2 : (arr.drop (0 + size)).length ≤ f2' := by simp [List.length_drop]; omega
      rw [ih f2' (arr.drop (0 + size)) hle1 hle2]

theorem chunkFuel_isSome (size : Nat) (hs : 1 ≤ size) :
    ∀ (n : Nat) (arr : List α), arr.length ≤ n →
      ∃ L, chunkFuel arr size arr.length 0 = some L := by
  intro n
  induction n with
  | zero =>
    intro arr h1
    have harr : arr = [] := List.length_eq_zero.mp (Nat.le_zero.mp h1)
    subst harr
    exact ⟨[], by simp [chunkFuel]⟩
  | succ n ih =>
    intro arr h1
    by_cases hne : arr = []
    · subst hne
      exact ⟨[], by simp [chunkFuel]⟩
    · have hlen : 0 < arr.length := List.length_pos.mpr hne
      obtain ⟨m, hm⟩ : ∃ m, arr.length = m + 1 := ⟨arr.length - 1, by omega⟩
      rw [hm]
      simp only [chunkFuel, if_pos hlen]
      rw [chunkFuel_shift size m arr (0 + size)]
      have hdl : (arr.drop (0 + size)).length ≤ m := by simp [List.length_drop]; omega
      rw [chunkFuel_congr size hs m (arr.drop (0 + size)).length (arr.drop (0 + size)) hdl
        (le_refl _)]
      obtain ⟨L, hL⟩ := ih (arr.drop (0 + size)) (by simp [List.length_drop]; omega)
      rw [hL]
      exact ⟨_, rfl⟩

theorem chunk_nil (size : Nat) : chunk ([] : List α) size = [] := rfl

theorem chunk_cons (size : Nat) (hs : 1 ≤ size) (arr : List α) (hne : arr ≠ []) :
    chunk arr size = arr.take size :: chunk (arr.drop size) size := by
  have hlen : 0 < arr.length := List.length_pos.mpr hne
  obtain ⟨m, hm⟩ : ∃ m, arr.length = m + 1 := ⟨arr.length - 1, by omega⟩
  unfold chunk
  rw [hm]
  simp only [chunkFuel, if_pos hlen]
  rw [chunkFuel_shift size m arr (0 + size)]
  have hdl : (arr.drop (0 + size)).length ≤ m := by simp [List.length_drop]; omega
  rw [chunkFuel_congr size hs m (arr.drop (0 + size)).length (arr.drop (0 + size)) hdl
    (le_refl _)]
  obtain ⟨L, hL⟩ :=
    chunkFuel_isSome size hs (arr.drop (0 + size)).length (arr.drop (0 + size)) (le_refl _)
  simp only [Nat.zero_add] at hL ⊢
  simp only [List.drop_zero]
  rw [hL]
  rfl

theorem chunk_length (size : Nat) (hs : 1 ≤ size) :
    ∀ (n : Nat) (arr : List α), arr.length ≤ n →
      (chunk arr size).length = (arr.length + size - 1) / size := by
  intro n
  induction n with
  | zero =>
    intro arr h1
    have harr : arr = [] := List.length_eq_zero.mp (Nat.le_zero.mp h1)
    subst harr
    have h0 : (size - 1) / size = 0 := Nat.div_eq_of_lt (by omega)
    simp [chunk_nil, h0]
  | succ n ih =>
    intro arr h1
    by_cases hne : arr = []
    · subst hne
      have h0 : (size - 1) / size = 0 := Nat.div_eq_of_lt (by omega)
      simp [chunk_nil, h0]
    · have hlen : 0 < arr.length := List.length_pos.mpr hne
      rw [chunk_cons size hs arr hne]
      have hd : (arr.drop size).length ≤ n := by simp [List.length_drop]; omega
      simp only [List.length_cons, ih (arr.drop size) hd, List.length_drop]
      rcases Nat.lt_or_ge arr.length size with hc | hc
      · have h01 : arr.length - size + size - 1 < size := by omega
        have h02 : arr.length + size - 1 = arr.length - 1 + size := by omega
        rw [Nat.div_eq_of_lt h01, h02, Nat.add_div_right _ (by omega : 0 < size),
          Nat.div_eq_of_lt (by omega : arr.length - 1 < size)]
      · have h01 : arr.length - size + size - 1 = arr.length - 1 := by omega
        have h02 : arr.length + size - 1 = arr.length - 1 + size := by omega
        rw [h01, h02, Nat.add_div_right _ (by omega : 0 < size)]

theorem chunk_get (size : Nat) (hs : 1 ≤ size) :
    ∀ (n : Nat) (arr : List α), arr.length ≤ n →
      ∀ (i : Nat) (hi : i < (chunk arr size).length),
        (chunk arr size).get ⟨i, hi⟩ = (arr.drop (i * size)).take size := by
  intro n
  induction n with
  | zero =>
    intro arr h1 i hi
    have harr : arr = [] := List.length_eq_zero.mp (Nat.le_zero.mp h1)
    subst harr
    simp [chunk_nil] at hi
  | succ n ih =>
    intro arr h1 i hi
    by_cases hne : arr = []
    · subst hne
      simp [chunk_nil] at hi
    · have hlen : 0 < arr.length := List.length_pos.mpr hne
      have hd : (arr.drop size).length ≤ n := by simp [List.length_drop]; omega
      rcases i with _ | i
      · simp [chunk_cons size hs arr hne]
      · have hi' : i < (chunk (arr.drop size) size).length := by
          have := hi
          rw [chunk_cons size hs arr hne] at this
          simpa using this
        have hrec := ih (arr.drop size) hd i hi'
        rw [List.drop_drop] at hrec
        have hstep : (chunk arr size).get ⟨i + 1, hi⟩ =
            (chunk (arr.drop size) size).get ⟨i, hi'⟩ := by
          have hcc := chunk_cons size hs arr hne
          rw [List.get_of_eq hcc]
          simp
        rw [hstep, hrec]
        have : size + i * size = (i + 1) * size := by ring
        rw [this]

theorem isUpperCh_false_of_snake (c : Char) (h : IsSnakeChar c) :
    isUpperCh c = false := by
  rcases h with h | h | h
  · simp only [isLowerCh, Bool.and_eq_true, decide_eq_true_eq] at h
    simp only [isUpperCh, Bool.and_eq_false_iff, decide_eq_false_iff_not]
    omega
  · simp only [isDigitCh, Bool.and_eq_true, decide_eq_true_eq] at h
    simp only [isUpperCh, Bool.and_eq_false_iff, decide_eq_false_iff_not]
    omega
  · subst h
    decide

theorem lowerChar_snake (c : Char) (h : IsSnakeChar c) : lowerChar c = c := by
  unfold lowerChar
  rw [isUpperCh_false_of_snake c h]
  simp

theorem takeWhile_upper_nil (s : List Char) (h : ∀ c ∈ s, IsSnakeChar c) :
    s.takeWhile isUpperCh = [] := by
  cases s with
  | nil => rfl
  | cons a t =>
    rw [List.takeWhile_cons, isUpperCh_false_of_snake a (h a (by simp))]
    simp

theorem leadingAcronymSplit_snake (s : List Char) (h : ∀ c ∈ s, IsSnakeChar c) :
    leadingAcronymSplit s = s := by
  unfold leadingAcronymSplit
  rw [takeWhile_upper_nil s h]
  cases s with
  | nil => simp
  | cons a t => simp

theorem midAcronymGo_snake :
    ∀ (fuel : Nat) (s : List Char), (∀ c ∈ s, IsSnakeChar c) →
      midAcronymGo fuel s = s := by
  intro fuel
  induction fuel with
  | zero => intro s _; rfl
  | succ fuel ih =>
    intro s h
    cases s with
    | nil => rfl
    | cons a t =>
      have ht : t.takeWhile isUpperCh = [] :=
        takeWhile_upper_nil t (fun c hc => h c (by simp [hc]))
      have hrec : midAcronymGo fuel t = t := ih t (fun c hc => h c (by simp [hc]))
      unfold midAcronymGo
      rw [ht]
      cases t with
      | nil => simp [hrec]
      | cons b t' => simp [hrec]

theorem singleUpperSplit_snake :
    ∀ (n : Nat) (s : List Char), s.length ≤ n → (∀ c ∈ s, IsSnakeChar c) →
      singleUpperSplit s = s := by
  intro n
  induction n with
  | zero =>
    intro s h1 _
    have harr : s = [] := List.length_eq_zero.mp (Nat.le_zero.mp h1)
    subst harr
    rfl
  | succ n ih =>
    intro s h1 h2
    rcases s with _ | ⟨a, _ | ⟨b, rest⟩⟩
    · rfl
    · rfl
    · have hb : isUpperCh b = false := isUpperCh_false_of_snake b (h2 b (by simp))
      unfold singleUpperSplit
      rw [hb]
      simp only [Bool.and_false, Bool.false_eq_true, if_false]
      rw [ih (b :: rest) (by simp at h1 ⊢; omega) (fun c hc => h2 c (by simp at hc ⊢; tauto))]

theorem map_lowerChar_snake (s : List Char) (h : ∀ c ∈ s, IsSnakeChar c) :
    s.map lowerChar = s := by
  induction s with
  | nil => rfl
  | cons a t iht =>
    simp only [List.map_cons]
    rw [lowerChar_snake a (h a (by simp)), iht (fun c hc => h c (by simp [hc]))]

theorem chunk_flatten (size : Nat) (hs : 1 ≤ size) :
    ∀ (n : Nat) (arr : List α), arr.length ≤ n → (chunk arr size).flatten = arr := by
  intro n
  induction n with
  | zero =>
    intro arr h1
    have harr : arr = [] := List.length_eq_zero.mp (Nat.le_zero.mp h1)
    subst harr
    simp [chunk_nil]
  | succ n ih =>
    intro arr h1
    by_cases hne : arr = []
    · subst hne
      simp [chunk_nil]
    · have hlen : 0 < arr.length := List.length_pos.mpr hne
      have hd : (arr.drop size).length ≤ n := by simp [List.length_drop]; omega
      rw [chunk_cons size hs arr hne]
      simp only [List.flatten_cons, ih (arr.drop size) hd, List.take_append_drop]

/-! ## Helper lemmas about the parser -/

theorem parseColumns_ok_iff (name : List Char) (k : FinderKind) (rest : List Char)
    (ob : Option OrderBySpec) (r : ParsedMethod) :
    parseColumns name k rest ob = .ok r ↔
      (rest ≠ [] ∧ (splitAnd rest).any (fun p => p == []) = false ∧
        r = ⟨k, (splitAnd rest).map parseColumnPart, ob⟩) := by
  unfold parseColumns
  by_cases h1 : rest = []
  · simp [h1]
  · rw [if_neg h1]
    by_cases h2 : (splitAnd rest).any (fun p => p == []) = true
    · rw [if_pos h2]
      constructor
      · intro hcon
        simp at hcon
      · rintro ⟨_, hany, _⟩
        rw [h2] at hany
        simp at hany
    · have h2' : (splitAnd rest).any (fun p => p == []) = false := by
        rwa [Bool.not_eq_true] at h2
      rw [if_neg h2]
      simp only [Except.ok.injEq]
      constructor
      · intro h
        exact ⟨h1, h2', h.symm⟩
      · intro h
        exact h.2.2.symm

theorem finderKindOf_allBy_iff (name : List Char) :
    finderKindOf name = some .findAllBy ↔
      (kindChars .findAllBy).isPrefixOf name = true := by
  unfold finderKindOf
  by_cases h1 : (kindChars .findAllBy).isPrefixOf name = true
  · simp [h1]
  · rw [if_neg h1]
    by_cases h2 : (kindChars .findBy).isPrefixOf name = true
    · simp [h2, h1]
    · simp [if_neg h2, h1]

theorem finderKindOf_findBy_iff (name : List Char) :
    finderKindOf name = some .findBy ↔
      ((kindChars .findBy).isPrefixOf name = true ∧
        (kindChars .findAllBy).isPrefixOf name = false) := by
  unfold finderKindOf
  by_cases h1 : (kindChars .findAllBy).isPrefixOf name = true
  · simp [h1]
  · rw [if_neg h1]
    rw [Bool.not_eq_true] at h1
    by_cases h2 : (kindChars .findBy).isPrefixOf name = true
    · simp [h2, h1]
    · simp [if_neg h2, h1, h2]

theorem parseFinderMethod_ok_cases (name : List Char) (r : ParsedMethod)
    (h : parseFinderMethod name = .ok r) :
    ∃ k, finderKindOf name = some k ∧
      name.drop (kindChars k).length ≠ [] ∧
      ((splitOrderBy (name.drop (kindChars k).length) = none ∧
        (splitAnd (name.drop (kindChars k).length)).any (fun p => p == []) = false ∧
        r = ⟨k, (splitAnd (name.drop (kindChars k).length)).map parseColumnPart, none⟩)
      ∨ (∃ pre post, splitOrderBy (name.drop (kindChars k).length) = some (pre, post) ∧
          post ≠ [] ∧ pre ≠ [] ∧ (splitAnd pre).any (fun p => p == []) = false ∧
          r = ⟨k, (splitAnd pre).map parseColumnPart,
               some ⟨toSnakeCase (stripDirection post).2, (stripDirection post).1⟩⟩)) := by
  unfold parseFinderMethod at h
  cases hk : finderKindOf name with
  | none =>
    rw [hk] at h
    simp at h
  | some k =>
    rw [hk] at h
    simp only [] at h
    by_cases h1 : name.drop (kindChars k).length = []
    · rw [if_pos h1] at h
      simp at h
    · rw [if_neg h1] at h
      refine ⟨k, rfl, h1, ?_⟩
      cases hsp : splitOrderBy (name.drop (kindChars k).length) with
      | none =>
        rw [hsp] at h
        rw [parseColumns_ok_iff] at h
        exact Or.inl ⟨rfl, h.2.1, h.2.2⟩
      | some pr =>
        obtain ⟨p1, p2⟩ := pr
        rw [hsp] at h
        simp only [] at h
        by_cases h2 : p2 = []
        · rw [if_pos h2] at h
          simp at h
        · rw [if_neg h2] at h
          rw [parseColumns_ok_iff] at h
          exact Or.inr ⟨p1, p2, rfl, h2, h.1, h.2.1, h.2.2⟩

theorem splitOrderBy_some_spec :
    ∀ (n : Nat) (xs : List Char), xs.length ≤ n →
      ∀ pre post, splitOrderBy xs = some (pre, post) →
        xs = pre ++ "OrderBy".toList ++ post ∧
        ∀ i < pre.length, ("OrderBy".toList).isPrefixOf (xs.drop i) = false := by
  intro n
  induction n with
  | zero =>
    intro xs h1 pre post hsp
    have hx : xs = [] := List.length_eq_zero.mp (Nat.le_zero.mp h1)
    subst hx
    simp [splitOrderBy] at hsp
  | succ n ih =>
    intro xs h1 pre post hsp
    unfold splitOrderBy at hsp
    split at hsp
    · rename_i x rest
      simp only [Option.some.injEq, Prod.mk.injEq] at hsp
      obtain ⟨hpre, hpost⟩ := hsp
      subst hpre
      subst hpost
      constructor
      · rfl
      · intro i hi
        simp at hi
    · rename_i x c rest hex
      cases hr : splitOrderBy rest with
      | none =>
        rw [hr] at hsp
        simp at hsp
      | some pr =>
        obtain ⟨p1, p2⟩ := pr
        rw [hr] at hsp
        simp only [Option.some.injEq, Prod.mk.injEq] at hsp
        obtain ⟨hpre, hpost⟩ := hsp
        subst hpre
        subst hpost
        have hrl : rest.length ≤ n := by simp at h1; omega
        obtain ⟨heq, hnocc⟩ := ih rest hrl p1 p2 hr
        constructor
        · rw [heq]
          simp
        · intro i hi
          cases i with
          | zero =>
            cases hb : (("OrderBy".toList).isPrefixOf ((c :: rest).drop 0)) with
            | false => rfl
            | true =>
              exfalso
              rw [List.drop_zero] at hb
              obtain ⟨t, ht⟩ := List.isPrefixOf_iff_prefix.mp hb
              have ht' : 'O' :: 'r' :: 'd' :: 'e' :: 'r' :: 'B' :: 'y' :: t = c :: rest := ht
              have hc : c = 'O' := (List.cons.injEq _ _ _ _ ▸ ht').1.symm
              have hrest : rest = 'r' :: 'd' :: 'e' :: 'r' :: 'B' :: 'y' :: t :=
                ((List.cons.injEq _ _ _ _ ▸ ht').2).symm
              exact hex t hc hrest
          | succ i =>
            have hi' : i < p1.length := by simp at hi; omega
            exact hnocc i hi'
    · simp at hsp

theorem parse_ok_prefixKind (name : List Char) (r : ParsedMethod)
    (h : parseFinderMethod name = .ok r) :
    finderKindOf name = some r.prefixKind := by
  obtain ⟨k, hk, _, hcase⟩ := parseFinderMethod_ok_cases name r h
  rcases hcase with ⟨_, _, hr⟩ | ⟨pre, post, _, _, _, _, hr⟩
  · rw [hr]
    exact hk
  · rw [hr]
    exact hk

/-! ## Helper lemmas about the dispatch path -/

theorem extractOptions_single (args : List JsValue) :
    extractOptions args false = (none, args) := by
  unfold extractOptions
  cases h : args.getLast? with
  | none => rfl
  | some v => simp

theorem extractOptions_concat_pop (args : List JsValue) (v : JsValue)
    (hq : isQueryOptions v = true) :
    extractOptions (args ++ [v]) true = (some v, args) := by
  unfold extractOptions
  rw [List.getLast?_concat]
  simp [hq, List.dropLast_concat]

theorem extractOptions_concat_nopop (args : List JsValue) (v : JsValue)
    (hq : isQueryOptions v = false) :
    extractOptions (args ++ [v]) true = (none, args ++ [v]) := by
  unfold extractOptions
  rw [List.getLast?_concat]
  simp [hq]

theorem buildWhere_take :
    ∀ (cols : List ParsedColumn) (vals : List JsValue),
      buildWhere cols vals = buildWhere cols (vals.take (expectedArgCount cols)) := by
  intro cols
  induction cols with
  | nil => intro vals; rfl
  | cons c cs ih =>
    intro vals
    by_cases hnull : c.comparison = .isNull ∨ c.comparison = .isNotNull
    · have hcount : expectedArgCount (c :: cs) = expectedArgCount cs := by
        unfold expectedArgCount
        rcases hnull with h | h <;> simp [List.filter_cons, h]
      rw [hcount]
      unfold buildWhere
      rw [if_pos hnull, if_pos hnull]
      rw [ih vals]
    · have h1 : ¬c.comparison = .isNull ∧ ¬c.comparison = .isNotNull := by tauto
      have hcount : expectedArgCount (c :: cs) = expectedArgCount cs + 1 := by
        unfold expectedArgCount
        simp [List.filter_cons, h1.1, h1.2]
      rw [hcount]
      unfold buildWhere
      rw [if_neg hnull, if_neg hnull]
      cases vals with
      | nil => simp
      | cons w ws =>
        simp only [List.take_succ_cons, List.headD_cons, List.tail_cons]
        rw [ih ws]

theorem invokeFinder_mismatch (name : List Char) (args : List JsValue)
    (parsed : ParsedMethod) (hp : parseFinderMethod name = .ok parsed)
    (hne : (extractOptions args (parsed.prefixKind == .findAllBy)).2.length ≠
      expectedArgCount parsed.columns) :
    invokeFinder name args =
      .error (.argumentCountMismatch name (expectedArgCount parsed.columns)
        (extractOptions args (parsed.prefixKind == .findAllBy)).2.length) := by
  unfold invokeFinder
  rw [hp]
  simp only []
  rw [if_pos hne]

theorem invokeFinder_ok (name : List Char) (args : List JsValue)
    (parsed : ParsedMethod) (hp : parseFinderMethod name = .ok parsed)
    (heq : (extractOptions args (parsed.prefixKind == .findAllBy)).2.length =
      expectedArgCount parsed.columns) :
    invokeFinder name args = .ok
      { whereClauses := buildWhere parsed.columns
          (extractOptions args (parsed.prefixKind == .findAllBy)).2
        orderBy := parsed.orderBy
        limit :=
          if isUndefined (optionField
              (extractOptions args (parsed.prefixKind == .findAllBy)).1
              ("limit".toList)) then none
          else some (optionField
            (extractOptions args (parsed.prefixKind == .findAllBy)).1
            ("limit".toList))
        offset :=
          if isUndefined (optionField
              (extractOptions args (parsed.prefixKind == .findAllBy)).1
              ("offset".toList)) then none
          else some (optionField
            (extractOptions args (parsed.prefixKind == .findAllBy)).1
            ("offset".toList))
        isMultiple := parsed.prefixKind == .findAllBy } := by
  unfold invokeFinder
  rw [hp]
  simp only []
  rw [if_neg (not_not_intro heq)]

/-! ## Claims about the batch executor and the normalizer -/

/-- Claim C6: for every non-empty records list and chunkSize ≥ 1 (default
1000), `createMany` partitions the records into contiguous chunks of at
most chunkSize with chunk `i` holding input indices
`[i*chunkSize, (i+1)*chunkSize)`; with `skipReturn` false the per-chunk row
results are concatenated in chunk index order — when each chunk operation
returns exactly its chunk's rows in order, the result equals the input —
and with `skipReturn` true the per-chunk affected-row counts are summed
into a count. -/
theorem spec_C6 :
    ∀ (α : Type) (records : List α) (size : Nat), 1 ≤ size → records ≠ [] →
      ((chunk records size).length = (records.length + size - 1) / size
      ∧ (∀ (i : Nat) (hi : i < (chunk records size).length),
          (chunk records size).get ⟨i, hi⟩ = (records.drop (i * size)).take size)
      ∧ (chunk records size).flatten = records
      ∧ (∀ (ins : List α → List α) (cnt : List α → Nat),
          createMany records (some { chunkSize := some size }) ins cnt =
            .rows (((chunk records size).map ins).flatten))
      ∧ (∀ (ins : List α → List α) (cnt : List α → Nat), (∀ b, ins b = b) →
          createMany records (some { chunkSize := some size }) ins cnt = .rows records)
      ∧ (∀ (ins : List α → List α) (cnt : List α → Nat),
          createMany records
              (some { chunkSize := some size, skipReturn := some true }) ins cnt =
            .count (((chunk records size).map cnt).sum))
      ∧ createManyChunks records none = chunk records DEFAULT_CHUNK_SIZE) := by
  intro α records size hs hne
  have hlen : records.length ≠ 0 := fun h => hne (List.length_eq_zero.mp h)
  refine ⟨chunk_length size hs records.length records (le_refl _),
    chunk_get size hs records.length records (le_refl _),
    chunk_flatten size hs records.length records (le_refl _), ?_, ?_, ?_, ?_⟩
  · intro ins cnt
    simp [createMany, hlen]
  · intro ins cnt hid
    have hmap : (chunk records size).map ins = chunk records size := by
      have : (chunk records size).map ins = (chunk records size).map id :=
        List.map_congr_left (fun b _ => hid b)
      rw [this, List.map_id]
    simp [createMany, hlen, hmap,
      chunk_flatten size hs records.length records (le_refl _)]
  · intro ins cnt
    simp [createMany, hlen]
  · simp [createManyChunks, hlen]

/-- Witness for C6 at a concrete five-element input with chunkSize 2. -/
theorem spec_C6_witness :
    (chunk [1, 2, 3, 4, 5] 2).length = 3
  ∧ (chunk [1, 2, 3, 4, 5] 2).flatten = [1, 2, 3, 4, 5]
  ∧ createMany [1, 2, 3, 4, 5] (some { chunkSize := some 2 }) id
      (fun b => b.length) = .rows [1, 2, 3, 4, 5] := by
  have h := spec_C6 Nat [1, 2, 3, 4, 5] 2 (by decide) (by decide)
  exact ⟨by rw [h.1]; decide, h.2.2.1, h.2.2.2.2.1 id (fun b => b.length) (fun b => rfl)⟩

/-- Claim C7: the identifier normalizer maps the acronym examples
`XMLHttpRequest`, `UserID`, `APIKey` and the camelCase example `userId` to
their snake_case forms, returns every already-snake_case input unchanged,
and maps the empty string to the empty string. -/
theorem spec_C7 :
    toSnakeCase ("XMLHttpRequest".toList) = "xml_http_request".toList
  ∧ toSnakeCase ("UserID".toList) = "user_id".toList
  ∧ toSnakeCase ("APIKey".toList) = "api_key".toList
  ∧ toSnakeCase ("userId".toList) = "user_id".toList
  ∧ (∀ s : List Char, (∀ c ∈ s, IsSnakeChar c) → toSnakeCase s = s)
  ∧ toSnakeCase [] = [] := by
  refine ⟨by decide, by decide, by decide, by decide, ?_, rfl⟩
  intro s h
  unfold toSnakeCase
  by_cases hs : s = []
  · simp [hs]
  · rw [if_neg hs]
    show (singleUpperSplit (midAcronymGo (leadingAcronymSplit s).length
      (leadingAcronymSplit s))).map lowerChar = s
    rw [leadingAcronymSplit_snake s h, midAcronymGo_snake s.length s h,
      singleUpperSplit_snake s.length s (le_refl _) h, map_lowerChar_snake s h]

/-- Witness for C7 at a concrete snake_case input. -/
theorem spec_C7_witness : toSnakeCase ("user_id2".toList) = "user_id2".toList :=
  spec_C7.2.2.2.2.1 ("user_id2".toList) (by decide)

/-- Claim C8: on the empty records list `createMany` returns the empty row
sequence when skipReturn is false or absent and a zero count when
skipReturn is true, and it issues no backend operation at all — the chunk
call list is empty and the result does not depend on the backend. -/
theorem spec_C8 :
    ∀ (α : Type) (options : Option CreateManyOptions) (ins : List α → List α)
      (cnt : List α → Nat),
      createManyChunks ([] : List α) options = []
    ∧ ((options.bind (fun o => o.skipReturn)).getD false = false →
        createMany ([] : List α) options ins cnt = .rows [])
    ∧ ((options.bind (fun o => o.skipReturn)).getD false = true →
        createMany ([] : List α) options ins cnt = .count 0)
    ∧ createMany ([] : List α) none ins cnt = .rows []
    ∧ createMany ([] : List α) (some { skipReturn := some true }) ins cnt = .count 0 := by
  intro α options ins cnt
  refine ⟨by simp [createManyChunks], ?_, ?_, by simp [createMany], by simp [createMany]⟩
  · intro h
    simp [createMany, h]
  · intro h
    simp [createMany, h]

/-- Witness for C8 at concrete options values. -/
theorem spec_C8_witness :
    createMany ([] : List Nat) (some { chunkSize := some 7 }) id
      (fun b => b.length) = .rows []
  ∧ createMany ([] : List Nat) (some { skipReturn := some true }) id
      (fun b => b.length) = .count 0 :=
  ⟨(spec_C8 Nat (some { chunkSize := some 7 }) id (fun b => b.length)).2.1 rfl,
   (spec_C8 Nat (some { skipReturn := some true }) id (fun b => b.length)).2.2.1 rfl⟩

/-- Claim C9: for every chunkSize ≥ 1 the chunk loop terminates and
produces `ceil(n / chunkSize)` chunks; `createMany` passes the configured
chunkSize to the loop without validation, and for chunkSize 0 on a
non-empty input the loop index never advances, so no amount of fuel makes
the loop terminate. -/
theorem spec_C9 :
    (∀ (α : Type) (records : List α) (size : Nat), 1 ≤ size →
      chunkFuel records size records.length 0 = some (chunk records size)
      ∧ (chunk records size).length = (records.length + size - 1) / size)
  ∧ (∀ (α : Type) (records : List α), records ≠ [] →
      ∀ fuel, chunkFuel records 0 fuel 0 = none)
  ∧ (∀ (α : Type) (records : List α) (options : Option CreateManyOptions),
      records ≠ [] →
      createManyChunks records options =
        chunk records ((options.bind (fun o => o.chunkSize)).getD DEFAULT_CHUNK_SIZE)) := by
  refine ⟨?_, ?_, ?_⟩
  · intro α records size hs
    obtain ⟨L, hL⟩ := chunkFuel_isSome size hs records.length records (le_refl _)
    refine ⟨?_, chunk_length size hs records.length records (le_refl _)⟩
    rw [hL]
    simp [chunk, hL]
  · intro α records hne fuel
    exact chunkFuel_size_zero records hne fuel
  · intro α records options hne
    have hlen : records.length ≠ 0 := fun h => hne (List.length_eq_zero.mp h)
    simp [createManyChunks, hlen]

/-- Witness for C9: termination with ceil-many chunks at chunkSize 2, and
divergence at chunkSize 0, on a concrete three-element input. -/
theorem spec_C9_witness :
    chunkFuel [1, 2, 3] 2 3 0 = some [[1, 2], [3]]
  ∧ chunkFuel [1, 2, 3] 0 5 0 = none := by
  have h1 := (spec_C9.1 Nat [1, 2, 3] 2 (by decide)).1
  have h2 := spec_C9.2.1 Nat [1, 2, 3] (by decide) 5
  exact ⟨h1.trans (by decide), h2⟩

/-! ## Claims about the parser -/

/-- Claim C1: each And-separated predicate part is matched against the
comparison suffixes in the fixed order GreaterThanEqual, LessThanEqual,
GreaterThan, LessThan, IsNotNull, IsNull, Like, In; the first matching
suffix wins, its remaining prefix (normalized) is the field, and without a
match the whole part is the field with operator Equals.  In particular
`parse("findByAgeGreaterThanEqual")` yields the single predicate
`{age, gte}`. -/
theorem spec_C1 :
    comparisonSuffixes.map (fun p => p.1) =
      ["GreaterThanEqual".toList, "LessThanEqual".toList, "GreaterThan".toList,
       "LessThan".toList, "IsNotNull".toList, "IsNull".toList, "Like".toList,
       "In".toList]
  ∧ (∀ (part suf : List Char) (op : ComparisonOperator)
       (l1 l2 : List (List Char × ComparisonOperator)),
      comparisonSuffixes = l1 ++ (suf, op) :: l2 →
      (∀ q ∈ l1, q.1.isSuffixOf part = false) →
      suf.isSuffixOf part = true →
      parseColumnPart part =
        ⟨toSnakeCase (part.take (part.length - suf.length)), op⟩)
  ∧ (∀ part : List Char, (∀ q ∈ comparisonSuffixes, q.1.isSuffixOf part = false) →
      parseColumnPart part = ⟨toSnakeCase part, .eq⟩)
  ∧ parseFinderMethod ("findByAgeGreaterThanEqual".toList) =
      .ok { prefixKind := .findBy,
            columns := [{ name := "age".toList, comparison := .gte }],
            orderBy := none } := by
  refine ⟨by decide, ?_, ?_, by decide⟩
  · intro part suf op l1 l2 hdecomp hnone hmatch
    unfold parseColumnPart
    rw [hdecomp, List.find?_append]
    have h1 : l1.find? (fun p => p.1.isSuffixOf part) = none :=
      List.find?_eq_none.mpr (fun q hq => by simp [hnone q hq])
    rw [h1, List.find?_cons_of_pos _ (by simpa using hmatch)]
    rfl
  · intro part hfail
    unfold parseColumnPart
    rw [List.find?_eq_none.mpr (fun q hq => by simp [hfail q hq])]

/-- Witness for C1: the longest suffix GreaterThanEqual wins on the part
`AgeGreaterThanEqual`. -/
theorem spec_C1_witness :
    parseColumnPart ("AgeGreaterThanEqual".toList) =
      ⟨toSnakeCase (("AgeGreaterThanEqual".toList).take
        (("AgeGreaterThanEqual".toList).length - ("GreaterThanEqual".toList).length)),
       .gte⟩ :=
  spec_C1.2.1 ("AgeGreaterThanEqual".toList) ("GreaterThanEqual".toList) .gte []
    [("LessThanEqual".toList, .lte), ("GreaterThan".toList, .gt),
     ("LessThan".toList, .lt), ("IsNotNull".toList, .isNotNull),
     ("IsNull".toList, .isNull), ("Like".toList, .like), ("In".toList, .inOp)]
    (by decide) (by decide) (by decide)

/-- Claim C2: `parse` fails with InvalidFinderName carrying the offending
name whenever the name has no finder prefix, nothing follows the prefix,
the ordering segment after OrderBy is empty, the predicate segment before
OrderBy is empty, or any part of the And-split predicate segment is empty;
in particular on `findBy`, `findAllBy`, `getByEmail`, `findByEmailAnd` and
`findByOrderByName`. -/
theorem spec_C2 :
    (∀ name : List Char,
      (finderKindOf name = none ∨
       ∃ k, finderKindOf name = some k ∧
         (name.drop (kindChars k).length = [] ∨
          (∃ pre post, splitOrderBy (name.drop (kindChars k).length) = some (pre, post) ∧
            (post = [] ∨ pre = [])) ∨
          [] ∈ splitAnd (match splitOrderBy (name.drop (kindChars k).length) with
                         | some pr => pr.1
                         | none => name.drop (kindChars k).length))) →
      parseFinderMethod name = .error (.invalidFinderName name))
  ∧ parseFinderMethod ("findBy".toList) = .error (.invalidFinderName ("findBy".toList))
  ∧ parseFinderMethod ("findAllBy".toList) =
      .error (.invalidFinderName ("findAllBy".toList))
  ∧ parseFinderMethod ("getByEmail".toList) =
      .error (.invalidFinderName ("getByEmail".toList))
  ∧ parseFinderMethod ("findByEmailAnd".toList) =
      .error (.invalidFinderName ("findByEmailAnd".toList))
  ∧ parseFinderMethod ("findByOrderByName".toList) =
      .error (.invalidFinderName ("findByOrderByName".toList)) := by
  refine ⟨?_, by decide, by decide, by decide, by decide, by decide⟩
  intro name hcond
  rcases hcond with hnone | ⟨k, hk, hcond⟩
  · simp [parseFinderMethod, hnone]
  · by_cases h1 : name.drop (kindChars k).length = []
    · simp [parseFinderMethod, hk, h1]
    · rcases hcond with h1' | ⟨pre, post, hsp, hpp⟩ | hmem
      · exact absurd h1' h1
      · rcases hpp with hpost | hpre
        · subst hpost
          simp [parseFinderMethod, hk, h1, hsp]
        · subst hpre
          by_cases hpost : post = []
          · subst hpost
            simp [parseFinderMethod, hk, h1, hsp]
          · simp [parseFinderMethod, hk, h1, hsp, hpost, parseColumns]
      · cases hsp : splitOrderBy (name.drop (kindChars k).length) with
        | none =>
          simp only [hsp] at hmem
          simp only [parseFinderMethod, hk, h1, hsp, parseColumns, if_neg h1]
          simp [hmem]
        | some pr =>
          simp only [hsp] at hmem
          by_cases hpost : pr.2 = []
          · simp [parseFinderMethod, hk, h1, hsp, hpost]
          · by_cases hpre : pr.1 = []
            · simp [parseFinderMethod, hk, h1, hsp, hpost, parseColumns, hpre]
            · simp only [parseFinderMethod, hk, h1, hsp, hpost, parseColumns, if_neg hpre]
              simp [hmem, hpost]

/-- Witness for C2 at the unrecognized-prefix input `getByEmail`. -/
theorem spec_C2_witness :
    parseFinderMethod ("getByEmail".toList) =
      .error (.invalidFinderName ("getByEmail".toList)) :=
  spec_C2.1 ("getByEmail".toList) (Or.inl (by decide))

/-- Claim C3: `parse` recognizes findAllBy as Collection arity and findBy
as Single arity, splits the remainder at the first occurrence of OrderBy,
and reads the ordering segment with a trailing Desc as direction desc, a
trailing Asc or no suffix as asc, normalizing the remaining prefix as the
order field; in particular `parse("findAllByStatusOrderByCreatedAtDesc")`
yields Collection arity, predicates `[{status, eq}]` and ordering
`{created_at, desc}`. -/
theorem spec_C3 :
    parseFinderMethod ("findAllByStatusOrderByCreatedAtDesc".toList) =
      .ok { prefixKind := .findAllBy,
            columns := [{ name := "status".toList, comparison := .eq }],
            orderBy := some { column := "created_at".toList, direction := .desc } }
  ∧ (∀ (name : List Char) (r : ParsedMethod), parseFinderMethod name = .ok r →
      ((r.prefixKind = .findAllBy ↔ (kindChars .findAllBy).isPrefixOf name = true) ∧
       (r.prefixKind = .findBy ↔
         ((kindChars .findBy).isPrefixOf name = true ∧
           (kindChars .findAllBy).isPrefixOf name = false))))
  ∧ (∀ (xs pre post : List Char), splitOrderBy xs = some (pre, post) →
      xs = pre ++ "OrderBy".toList ++ post ∧
      ∀ i < pre.length, ("OrderBy".toList).isPrefixOf (xs.drop i) = false)
  ∧ (∀ (name : List Char) (k : FinderKind) (pre post : List Char) (r : ParsedMethod),
      finderKindOf name = some k →
      splitOrderBy (name.drop (kindChars k).length) = some (pre, post) →
      post ≠ [] →
      parseFinderMethod name = .ok r →
      ((("Desc".toList).isSuffixOf post = true →
          r.orderBy = some ⟨toSnakeCase (post.take (post.length - 4)), .desc⟩) ∧
       (("Desc".toList).isSuffixOf post = false →
          ("Asc".toList).isSuffixOf post = true →
          r.orderBy = some ⟨toSnakeCase (post.take (post.length - 3)), .asc⟩) ∧
       (("Desc".toList).isSuffixOf post = false →
          ("Asc".toList).isSuffixOf post = false →
          r.orderBy = some ⟨toSnakeCase post, .asc⟩))) := by
  refine ⟨by decide, ?_, ?_, ?_⟩
  · intro name r h
    have hk := parse_ok_prefixKind name r h
    constructor
    · constructor
      · intro hall
        rw [hall] at hk
        exact (finderKindOf_allBy_iff name).mp hk
      · intro hpf
        have h2 := (finderKindOf_allBy_iff name).mpr hpf
        rw [hk] at h2
        exact Option.some.inj h2
    · constructor
      · intro hfb
        rw [hfb] at hk
        exact (finderKindOf_findBy_iff name).mp hk
      · intro hpf
        have h2 := (finderKindOf_findBy_iff name).mpr hpf
        rw [hk] at h2
        exact Option.some.inj h2
  · intro xs pre post hsp
    exact splitOrderBy_some_spec xs.length xs (le_refl _) pre post hsp
  · intro name k pre post r hk hsp hpost h
    obtain ⟨k', hk', h1, hcase⟩ := parseFinderMethod_ok_cases name r h
    rw [hk] at hk'
    have hkk : k = k' := Option.some.inj hk'
    subst hkk
    rcases hcase with ⟨hnone, _, _⟩ | ⟨pre', post', hsp', hpost', hpre', hany', hr⟩
    · rw [hsp] at hnone
      simp at hnone
    · rw [hsp] at hsp'
      simp only [Option.some.injEq, Prod.mk.injEq] at hsp'
      obtain ⟨hpre2, hpost2⟩ := hsp'
      subst hpre2
      subst hpost2
      refine ⟨?_, ?_, ?_⟩
      · intro hdesc
        have hd' : ['D', 'e', 's', 'c'] <:+ post := List.isSuffixOf_iff_suffix.mp hdesc
        rw [hr]
        simp [stripDirection, hd']
      · intro hdesc hasc
        have hd' : ¬ ['D', 'e', 's', 'c'] <:+ post := fun hcon => by
          rw [show ['D', 'e', 's', 'c'] = "Desc".toList from rfl,
            ← List.isSuffixOf_iff_suffix, hdesc] at hcon
          exact Bool.noConfusion hcon
        have ha' : ['A', 's', 'c'] <:+ post := List.isSuffixOf_iff_suffix.mp hasc
        rw [hr]
        simp [stripDirection, hd', ha']
      · intro hdesc hasc
        have hd' : ¬ ['D', 'e', 's', 'c'] <:+ post := fun hcon => by
          rw [show ['D', 'e', 's', 'c'] = "Desc".toList from rfl,
            ← List.isSuffixOf_iff_suffix, hdesc] at hcon
          exact Bool.noConfusion hcon
        have ha' : ¬ ['A', 's', 'c'] <:+ post := fun hcon => by
          rw [show ['A', 's', 'c'] = "Asc".toList from rfl,
            ← List.isSuffixOf_iff_suffix, hasc] at hcon
          exact Bool.noConfusion hcon
        rw [hr]
        simp [stripDirection, hd', ha']

/-- Witness for C3: the direction rule applied at the concrete parse of
`findAllByStatusOrderByCreatedAtDesc`. -/
theorem spec_C3_witness :
    ({ prefixKind := .findAllBy,
       columns := [{ name := "status".toList, comparison := .eq }],
       orderBy := some { column := "created_at".toList,
                         direction := .desc } } : ParsedMethod).orderBy =
      some ⟨toSnakeCase (("CreatedAtDesc".toList).take
        (("CreatedAtDesc".toList).length - 4)), .desc⟩ :=
  (spec_C3.2.2.2 ("findAllByStatusOrderByCreatedAtDesc".toList) .findAllBy
    ("Status".toList) ("CreatedAtDesc".toList)
    { prefixKind := .findAllBy,
      columns := [{ name := "status".toList, comparison := .eq }],
      orderBy := some { column := "created_at".toList, direction := .desc } }
    (by decide) (by decide) (by decide) (by decide)).1 (by decide)

/-- Claim C10: an And-separated part that consists exactly of a comparison
suffix parses successfully to a predicate with an empty field name —
`findByIsNull` and `findByAgeAndIn` both parse — and the parser only
rejects parts that are empty before suffix matching, never an empty field
in front of a matched suffix. -/
theorem spec_C10 :
    parseFinderMethod ("findByIsNull".toList) =
      .ok { prefixKind := .findBy,
            columns := [{ name := [], comparison := .isNull }],
            orderBy := none }
  ∧ parseFinderMethod ("findByAgeAndIn".toList) =
      .ok { prefixKind := .findBy,
            columns := [{ name := "age".toList, comparison := .eq },
                        { name := [], comparison := .inOp }],
            orderBy := none }
  ∧ (∀ p ∈ comparisonSuffixes, parseColumnPart p.1 = ⟨[], p.2⟩)
  ∧ (∀ (name : List Char) (k : FinderKind),
      finderKindOf name = some k →
      name.drop (kindChars k).length ≠ [] →
      splitOrderBy (name.drop (kindChars k).length) = none →
      ¬ [] ∈ splitAnd (name.drop (kindChars k).length) →
      parseFinderMethod name =
        .ok { prefixKind := k,
              columns := (splitAnd (name.drop (kindChars k).length)).map
                parseColumnPart,
              orderBy := none }) := by
  refine ⟨by decide, by decide, by decide, ?_⟩
  intro name k hk h1 hsp hmem
  simp [parseFinderMethod, hk, h1, hsp, parseColumns, hmem]

/-- Witness for C10: the success rule applied at `findByIsNull`. -/
theorem spec_C10_witness :
    parseFinderMethod ("findByIsNull".toList) =
      .ok { prefixKind := .findBy,
            columns := (splitAnd (("findByIsNull".toList).drop
              (kindChars .findBy).length)).map parseColumnPart,
            orderBy := none } :=
  spec_C10.2.2.2 ("findByIsNull".toList) .findBy (by decide) (by decide)
    (by decide) (by decide)

/-! ## Claims about the dispatch path -/

/-- Claim C4: for every derived-finder invocation the number of predicates
requiring a bound value (all operators except isNull/isNotNull, which
consume zero values while every other operator consumes exactly one) must
equal the number of arguments remaining after options extraction;
otherwise the call fails with ArgumentCountMismatch carrying the expected
and received counts.  In particular
`invoke("findByEmailAndStatus", ["a@x.com"])` fails with expected 2,
received 1. -/
theorem spec_C4 :
    (∀ (name : List Char) (args : List JsValue) (parsed : ParsedMethod),
      parseFinderMethod name = .ok parsed →
      (extractOptions args (parsed.prefixKind == .findAllBy)).2.length ≠
        expectedArgCount parsed.columns →
      invokeFinder name args =
        .error (.argumentCountMismatch name (expectedArgCount parsed.columns)
          (extractOptions args (parsed.prefixKind == .findAllBy)).2.length))
  ∧ (∀ (name : List Char) (args : List JsValue) (parsed : ParsedMethod),
      parseFinderMethod name = .ok parsed →
      (extractOptions args (parsed.prefixKind == .findAllBy)).2.length =
        expectedArgCount parsed.columns →
      ∃ q, invokeFinder name args = .ok q)
  ∧ (∀ (cols : List ParsedColumn) (vals : List JsValue),
      buildWhere cols vals = buildWhere cols (vals.take (expectedArgCount cols)))
  ∧ (∀ (c : ParsedColumn) (cols : List ParsedColumn) (vals : List JsValue),
      c.comparison = .isNull ∨ c.comparison = .isNotNull →
      buildWhere (c :: cols) vals =
        (c.name, operatorMap c.comparison, .vNull) :: buildWhere cols vals)
  ∧ invokeFinder ("findByEmailAndStatus".toList) [.vStr ("a@x.com".toList)] =
      .error (.argumentCountMismatch ("findByEmailAndStatus".toList) 2 1) := by
  refine ⟨invokeFinder_mismatch, ?_, buildWhere_take, ?_, by rfl⟩
  · intro name args parsed hp heq
    exact ⟨_, invokeFinder_ok name args parsed hp heq⟩
  · intro c cols vals h
    simp only [buildWhere]
    rw [if_pos h]

/-- Witness for C4: a collection finder expecting one value called with
two. -/
theorem spec_C4_witness :
    invokeFinder ("findAllByStatus".toList)
      [.vStr ("A".toList), .vStr ("B".toList)] =
      .error (.argumentCountMismatch ("findAllByStatus".toList) 1 2) :=
  spec_C4.1 ("findAllByStatus".toList) [.vStr ("A".toList), .vStr ("B".toList)]
    { prefixKind := .findAllBy,
      columns := [{ name := "status".toList, comparison := .eq }],
      orderBy := none }
    (by decide) (by decide)

/-- Counterexample to C5 as stated: an object whose `limit` key holds the
string value `"x"` has a limit key, yet it is not popped off as pagination
options — `extractOptions` leaves it in place and the call counts it as a
predicate value, failing with ArgumentCountMismatch instead. -/
theorem spec_C5_counterexample :
    hasKey [("limit".toList, JsValue.vStr ("x".toList))] ("limit".toList) = true
  ∧ extractOptions
      [JsValue.vStr ("ACTIVE".toList),
       JsValue.vObj [("limit".toList, JsValue.vStr ("x".toList))]] true =
      (none,
       [JsValue.vStr ("ACTIVE".toList),
        JsValue.vObj [("limit".toList, JsValue.vStr ("x".toList))]])
  ∧ invokeFinder ("findAllByStatus".toList)
      [JsValue.vStr ("ACTIVE".toList),
       JsValue.vObj [("limit".toList, JsValue.vStr ("x".toList))]] =
      .error (.argumentCountMismatch ("findAllByStatus".toList) 1 2)
  ∧ extractOptions
      [JsValue.vStr ("ACTIVE".toList),
       JsValue.vObj [("limit".toList, JsValue.vNum (-5))]] true =
      (some (JsValue.vObj [("limit".toList, JsValue.vNum (-5))]),
       [JsValue.vStr ("ACTIVE".toList)]) :=
  ⟨by decide, by rfl, by rfl, by rfl⟩

/-- Claim C5 (amended): for a Collection-arity finder, if the last argument
passes the structural QueryOptions check — it has a `limit` and/or `offset`
key whose value is a number or undefined — that argument is popped off as
pagination options, its defined limit/offset values are applied to the
query, and the remaining arguments are the predicate values; for
Single-arity finders no extraction ever occurs and every argument counts as
a predicate value. -/
theorem spec_C5 :
    (∀ (args : List JsValue) (v : JsValue), isQueryOptions v = true →
      extractOptions (args ++ [v]) true = (some v, args))
  ∧ (∀ (args : List JsValue) (v : JsValue), isQueryOptions v = false →
      extractOptions (args ++ [v]) true = (none, args ++ [v]))
  ∧ (∀ args : List JsValue, extractOptions args false = (none, args))
  ∧ (∀ (name : List Char) (args : List JsValue) (parsed : ParsedMethod)
       (v : JsValue),
      parseFinderMethod name = .ok parsed →
      parsed.prefixKind = .findAllBy →
      isQueryOptions v = true →
      args.length = expectedArgCount parsed.columns →
      invokeFinder name (args ++ [v]) = .ok
        { whereClauses := buildWhere parsed.columns args
          orderBy := parsed.orderBy
          limit := if isUndefined (optionField (some v) ("limit".toList)) then none
            else some (optionField (some v) ("limit".toList))
          offset := if isUndefined (optionField (some v) ("offset".toList)) then none
            else some (optionField (some v) ("offset".toList))
          isMultiple := true })
  ∧ (∀ (name : List Char) (args : List JsValue) (parsed : ParsedMethod),
      parseFinderMethod name = .ok parsed →
      parsed.prefixKind = .findBy →
      args.length = expectedArgCount parsed.columns →
      invokeFinder name args = .ok
        { whereClauses := buildWhere parsed.columns args
          orderBy := parsed.orderBy
          limit := none
          offset := none
          isMultiple := false }) := by
  refine ⟨extractOptions_concat_pop, extractOptions_concat_nopop,
    extractOptions_single, ?_, ?_⟩
  · intro name args parsed v hp hkind hq hlen
    have hm : (parsed.prefixKind == FinderKind.findAllBy) = true := by
      rw [hkind]
      decide
    have hlen2 : (extractOptions (args ++ [v])
        (parsed.prefixKind == .findAllBy)).2.length =
        expectedArgCount parsed.columns := by
      rw [hm, extractOptions_concat_pop args v hq]
      exact hlen
    have hx := invokeFinder_ok name (args ++ [v]) parsed hp hlen2
    rw [hm, extractOptions_concat_pop args v hq] at hx
    simpa using hx
  · intro name args parsed hp hkind hlen
    have hm : (parsed.prefixKind == FinderKind.findAllBy) = false := by
      rw [hkind]
      decide
    have hlen2 : (extractOptions args
        (parsed.prefixKind == .findAllBy)).2.length =
        expectedArgCount parsed.columns := by
      rw [hm, extractOptions_single args]
      exact hlen
    have hx := invokeFinder_ok name args parsed hp hlen2
    rw [hm, extractOptions_single args] at hx
    simpa [optionField, isUndefined] using hx

/-- Witness for the amended C5: a valid options object `{limit: 5}` is
popped off a collection finder call and applied as the query limit. -/
theorem spec_C5_witness :
    invokeFinder ("findAllByStatus".toList)
      [JsValue.vStr ("ACTIVE".toList),
       JsValue.vObj [("limit".toList, JsValue.vNum 5)]] = .ok
      { whereClauses := buildWhere
          [{ name := "status".toList, comparison := .eq }]
          [JsValue.vStr ("ACTIVE".toList)]
        orderBy := none
        limit := if isUndefined (optionField
            (some (JsValue.vObj [("limit".toList, JsValue.vNum 5)]))
            ("limit".toList)) then none
          else some (optionField
            (some (JsValue.vObj [("limit".toList, JsValue.vNum 5)]))
            ("limit".toList))
        offset := if isUndefined (optionField
            (some (JsValue.vObj [("limit".toList, JsValue.vNum 5)]))
            ("offset".toList)) then none
          else some (optionField
            (some (JsValue.vObj [("limit".toList, JsValue.vNum 5)]))
            ("offset".toList))
        isMultiple := true } :=
  spec_C5.2.2.2.1 ("findAllByStatus".toList) [JsValue.vStr ("ACTIVE".toList)]
    { prefixKind := .findAllBy,
      columns := [{ name := "status".toList, comparison := .eq }],
      orderBy := none }
    (JsValue.vObj [("limit".toList, JsValue.vNum 5)])
    (by decide) rfl (by rfl) rfl

end Frix


